import Mathlib

/-!
# Verification of the SGX finance downloader core

A shallow embedding of the repository's core logic:

* `src/date_utils.py` — calendar predicates and the date → URL-identifier map
  (`is_weekday`, `get_last_weekday`, `get_url_id`);
* `src/download_utils.py` — the fetch step (`download_file_to_temp`), the
  extract-and-publish step (`unzip_and_upload_to_gcs`) and the orchestrators
  (`download_files_for_date`, `download_date_range`).

Dates are modelled as integer day numbers (Rata Die: day 1 = 0001-01-01,
a Monday).  Python's `datetime` arithmetic maps to integer arithmetic:
`date + timedelta(days=1)` is `d + 1`, comparison is integer comparison,
and `date.weekday()` (Monday = 0 … Sunday = 6) is `(d + 6) % 7`.
-/

namespace FinanceDownload

/-- Day-of-week of a day number, Python `datetime.weekday()` convention:
Monday = 0 … Sunday = 6.  Rata Die day 1 (0001-01-01) is a Monday. -/
def weekday (d : Int) : Int := (d + 6) % 7

/-- Predicate `is_weekday` from `date_utils.py`: `date.weekday() < 5`. -/
def is_weekday (d : Int) : Bool := weekday d < 5

/-- Gregorian leap-year test, as in the proleptic Gregorian calendar used by
Python `datetime`. -/
def isLeapYear (y : Nat) : Bool := (y % 4 == 0 && y % 100 != 0) || y % 400 == 0

/-- Days in the months strictly before month `m` of a year (`m` is 1-based). -/
def daysBeforeMonth (leap : Bool) (m : Nat) : Nat :=
  (match m with
   | 1 => 0 | 2 => 31 | 3 => 59 | 4 => 90 | 5 => 120 | 6 => 151
   | 7 => 181 | 8 => 212 | 9 => 243 | 10 => 273 | 11 => 304 | _ => 334)
  + (if leap && m > 2 then 1 else 0)

/-- Rata Die day number of a Gregorian date: 0001-01-01 ↦ 1.  This is the
standard conversion used to give concrete calendar dates (for example the
configured `BASE_DATE = datetime(2025, 3, 14)`) an integer day number. -/
def rataDie (y m d : Nat) : Int :=
  ((365 * (y - 1) + (y - 1) / 4 - (y - 1) / 100 + (y - 1) / 400
    + daysBeforeMonth (isLeapYear y) m + d : Nat) : Int)

/-- Backward walk of `get_last_weekday`: from candidate day `c`, return `c`
if it is a weekday, else step to `c - 1`.  The Python `while` loop carries no
fuel; the fuel argument here only bounds the recursion and `7` is never
exhausted (at most two consecutive days are non-weekdays), as the
characterisation theorems below show. -/
def lastWeekdayAux : Int → Nat → Int
  | c, 0 => c
  | c, fuel + 1 => if is_weekday c then c else lastWeekdayAux (c - 1) fuel

/-- Function `get_last_weekday` from `date_utils.py`: start at `date - 1` and walk
backward one calendar day at a time until `is_weekday` holds. -/
def get_last_weekday (d : Int) : Int := lastWeekdayAux (d - 1) 7

/-- Number of weekdays among the `n` consecutive days `s, s+1, …, s+n-1`:
the forward counting loop of `get_url_id` (`current_date` from `base_date+1`
up to `date`, adding 1 per weekday). -/
def weekdayCount : Int → Nat → Nat
  | _, 0 => 0
  | s, n + 1 => (if is_weekday s then 1 else 0) + weekdayCount (s + 1) n

/-- Number of weekdays among the `n` consecutive days `s, s-1, …, s-n+1`:
the backward counting loop of `get_url_id` (`current_date` from `base_date-1`
down to `date`, subtracting 1 per weekday — recorded here as the positive
count that is subtracted). -/
def weekdayCountDown : Int → Nat → Nat
  | _, 0 => 0
  | s, n + 1 => (if is_weekday s then 1 else 0) + weekdayCountDown (s - 1) n

/-- Function `get_url_id` from `date_utils.py`.  Equal dates return the base id;
a later date adds the number of weekdays in `base_date+1 … date`
(`date - base_date` loop iterations); an earlier date subtracts the number
of weekdays in `base_date-1 … date` (`base_date - date` iterations). -/
def get_url_id (date base_date : Int) (base_url_id : Int) : Int :=
  if date = base_date then base_url_id
  else if date > base_date then
    base_url_id + weekdayCount (base_date + 1) (date - base_date).toNat
  else
    base_url_id - weekdayCountDown (base_date - 1) (base_date - date).toNat

/-- Number of business days in the half-open interval `(d1, d2]`
(the spec's `count_business_days(d1, d2]`). -/
def businessDaysBetween (d1 d2 : Int) : Nat :=
  weekdayCount (d1 + 1) (d2 - d1).toNat

/-- The earliest business day strictly after `d` (forward analogue of
`get_last_weekday`, used to state the round-trip property of the spec). -/
def nextWeekdayAux : Int → Nat → Int
  | c, 0 => c
  | c, fuel + 1 => if is_weekday c then c else nextWeekdayAux (c + 1) fuel

/-- Next business day strictly after `d`. -/
def next_weekday (d : Int) : Int := nextWeekdayAux (d + 1) 7

/-! ## The extract-and-publish step (`unzip_and_upload_to_gcs`)

The archive handed to `unzip_and_upload_to_gcs` is either malformed
(`zipfile.ZipFile` / `extractall` raises `zipfile.BadZipFile`) or a
well-formed container holding a list of file members, each a relative path
with byte content.  Extraction writes the members under a fresh temporary
directory; `os.walk` then revisits exactly those files, so the upload loop
runs once per member.  `blob.upload_from_filename` can raise (any
`Exception`), which the function catches after uploading the earlier
members; the `uploadOk` oracle below says whether the upload of a given
destination key succeeds.  Bytes are modelled as `List Nat`. -/

/-- One object in the GCS bucket, as created by
`bucket.blob(gcs_filepath).upload_from_filename(local_path, content_type=...)`. -/
structure GcsObject where
  key : String
  content : List Nat
  contentType : String
  deriving Repr, DecidableEq

/-- The archive file handed to `unzip_and_upload_to_gcs`. -/
inductive ZipFile where
  /-- Opening or extracting raises `zipfile.BadZipFile`. -/
  | malformed : ZipFile
  /-- A well-formed archive with the given (relative path, bytes) members. -/
  | wellFormed (members : List (String × List Nat)) : ZipFile
  deriving Repr, DecidableEq

/-- Observable outcome of one `unzip_and_upload_to_gcs` call: the boolean
the function returns, the objects actually uploaded to the bucket (in upload
order), and whether `os.remove(zip_filepath)` ran. -/
structure UnzipResult where
  success : Bool
  published : List GcsObject
  archiveRemoved : Bool
  deriving Repr, DecidableEq

/-- Python `os.path.join(a, b)` for a relative second component `b` (as produced by
`os.path.relpath`): keep `b` if `a` is empty, otherwise insert a `/` unless
`a` already ends with one. -/
def pathJoin (a b : String) : String :=
  if a = "" then b
  else if a.back = '/' then a ++ b
  else a ++ "/" ++ b

/-- The upload loop of `unzip_and_upload_to_gcs`: walk the extracted members
in order, uploading each to `pathJoin gcs_destination_path relative_path`
with content type `application/octet-stream`.  A failing upload raises, so
the loop stops there; members already uploaded stay published.  Returns the
uploaded objects and whether the whole loop completed. -/
def uploadMembers (gcs_destination_path : String) (uploadOk : String → Bool) :
    List (String × List Nat) → List GcsObject × Bool
  | [] => ([], true)
  | (p, c) :: rest =>
    let key := pathJoin gcs_destination_path p
    if uploadOk key then
      let r := uploadMembers gcs_destination_path uploadOk rest
      (⟨key, c, "application/octet-stream"⟩ :: r.1, r.2)
    else
      ([], false)

/-- Function `unzip_and_upload_to_gcs` from `download_utils.py`.  A malformed archive
raises `BadZipFile` inside the `try`, which is caught and turned into
`False` — `os.remove` (which sits after the extraction/upload block) never
runs.  An upload exception is likewise caught after the earlier members were
uploaded, again skipping `os.remove`.  Only when extraction and every upload
succeed does the function delete the zip and return `True`. -/
def unzip_and_upload_to_gcs (zip : ZipFile) (gcs_destination_path : String)
    (uploadOk : String → Bool) : UnzipResult :=
  match zip with
  | .malformed => ⟨false, [], false⟩
  | .wellFormed members =>
    let r := uploadMembers gcs_destination_path uploadOk members
    if r.2 then ⟨true, r.1, true⟩ else ⟨false, r.1, false⟩

/-! ## The fetch step (`download_file_to_temp`) -/

/-- Outcome of `requests.get(url, stream=True, timeout=10)` followed by
`raise_for_status()`: either the full response body, or any
`requests.exceptions.RequestException` (connection error, timeout, or a
non-2xx status raised by `raise_for_status`). -/
inductive HttpResult where
  | ok (body : List Nat) : HttpResult
  | err : HttpResult
  deriving Repr, DecidableEq

/-- The local filesystem state touched by `download_file_to_temp`: the files
written (latest write first) and the lines of `missed_files.txt` in append
order. -/
structure FS where
  files : List (String × List Nat)
  missedLines : List String
  deriving Repr, DecidableEq

/-- Function `download_file_to_temp` from `download_utils.py`.  `http` models the
network (response per URL); `today` is `datetime.now().strftime('%Y-%m-%d')`.
On success the full `response.content` is written to `temp_filepath` and the
function returns `True`; on a `RequestException` one line
`f"{today} - {url}\n"` is appended to `missed_files.txt` and it returns
`False`. -/
def download_file_to_temp (http : String → HttpResult) (today : String)
    (url temp_filepath : String) (fs : FS) : Bool × FS :=
  match http url with
  | .ok body => (true, { fs with files := (temp_filepath, body) :: fs.files })
  | .err => (false, { fs with missedLines := fs.missedLines ++ [today ++ " - " ++ url] })

/-! ## The orchestrators (`download_files_for_date`, `download_date_range`)

For the dispatch claims only the per-unit boolean outcome of
`download_single_file date file_type …` matters (it returns a `bool` and
catches its own errors), so it is abstracted as an oracle
`unit : Int → String → Bool`.  Each orchestrator is paired with the trace of
`(date, file_type)` units it dispatches, in dispatch order. -/

/-- Function `download_files_for_date` from `download_utils.py`: run
`download_single_file` for every file type in order, flipping `success` on
failure but never stopping early.  First component is the returned boolean,
second the dispatched `(date, file_type)` units in order. -/
def download_files_for_date (unit : Int → String → Bool) (date : Int) :
    List String → Bool × List (Int × String)
  | [] => (true, [])
  | ft :: rest =>
    let r := download_files_for_date unit date rest
    (unit date ft && r.1, (date, ft) :: r.2)

/-- How a `download_date_range` call ends: a normal return, or an unhandled
exception escaping the function. -/
inductive RangeOutcome where
  /-- The function returns `None` normally. -/
  | completed : RangeOutcome
  /-- An unhandled `NameError` escapes the function. -/
  | nameError : RangeOutcome
  deriving Repr, DecidableEq

/-- Function `download_date_range` from `download_utils.py`.  The module
imports only `datetime` from the `datetime` package (line 5): `timedelta` is
an unbound name there (its import in `date_utils.py` does not reach this
module's namespace), so the increment `current_date += timedelta(days=1)`
closing the first `while current_date <= end_date` iteration raises
`NameError`, which nothing catches.  Hence: with `start_date > end_date` the
loop body never runs and the function returns normally having dispatched
nothing; with `start_date ≤ end_date` the first iteration dispatches the
first date's units (all file types if it is a business day, none otherwise)
and the call then crashes — no later date is ever reached.  The result is
the outcome paired with the `(date, file_type)` units dispatched before the
function ended, in dispatch order. -/
def download_date_range (unit : Int → String → Bool) (start_date end_date : Int)
    (file_types : List String) : RangeOutcome × List (Int × String) :=
  if start_date ≤ end_date then
    (RangeOutcome.nameError,
     if is_weekday start_date then (download_files_for_date unit start_date file_types).2
     else [])
  else (RangeOutcome.completed, [])

/-! ## Calendar lemmas -/

theorem is_weekday_true_iff (d : Int) : is_weekday d = true ↔ (d + 6) % 7 < 5 := by
  simp [is_weekday, weekday]

theorem is_weekday_false_iff (d : Int) : is_weekday d = false ↔ 5 ≤ (d + 6) % 7 := by
  simp [is_weekday, weekday]

/-- C9: `is_business_day` (`is_weekday`) returns `true` iff the date's weekday
is one of Monday (0) through Friday (4); being a Lean function over all `Int`
day numbers it is pure and total with no failure mode. -/
theorem is_weekday_spec (d : Int) :
    is_weekday d = true ↔
      (weekday d = 0 ∨ weekday d = 1 ∨ weekday d = 2 ∨ weekday d = 3 ∨ weekday d = 4) := by
  rw [is_weekday_true_iff]
  unfold weekday
  omega

/-- C9 witness: 2025-03-17 is a Monday and a business day. -/
theorem is_weekday_spec_witness :
    is_weekday (rataDie 2025 3 17) = true ↔
      (weekday (rataDie 2025 3 17) = 0 ∨ weekday (rataDie 2025 3 17) = 1 ∨
       weekday (rataDie 2025 3 17) = 2 ∨ weekday (rataDie 2025 3 17) = 3 ∨
       weekday (rataDie 2025 3 17) = 4) :=
  is_weekday_spec (rataDie 2025 3 17)

/-- The backward walk returns `c - k` when day `c - k` is the first weekday
among `c, c-1, …` and the fuel exceeds `k`. -/
theorem lastWeekdayAux_eq (fuel : Nat) : ∀ (c : Int) (k : Nat), k < fuel →
    is_weekday (c - k) = true → (∀ j : Nat, j < k → is_weekday (c - j) = false) →
    lastWeekdayAux c fuel = c - k := by
  induction fuel with
  | zero => intro c k hk _ _; omega
  | succ f ih =>
    intro c k hk hw hmin
    rw [lastWeekdayAux]
    by_cases hc : is_weekday c = true
    · have hk0 : k = 0 := by
        by_contra h
        have h0 := hmin 0 (by omega)
        simp only [Nat.cast_zero, sub_zero] at h0
        rw [hc] at h0
        exact Bool.noConfusion h0
      subst hk0
      simp [hc]
    · have hk0 : k ≠ 0 := by
        intro h
        subst h
        simp only [Nat.cast_zero, sub_zero] at hw
        exact hc hw
      obtain ⟨k2, rfl⟩ : ∃ k2, k = k2 + 1 := ⟨k - 1, by omega⟩
      rw [if_neg hc]
      have hcast : c - 1 - (k2 : Int) = c - ((k2 + 1 : Nat) : Int) := by push_cast; ring
      have hw2 : is_weekday (c - 1 - (k2 : Int)) = true := by rw [hcast]; exact hw
      have hmin2 : ∀ j : Nat, j < k2 → is_weekday (c - 1 - (j : Int)) = false := by
        intro j hj
        have h := hmin (j + 1) (by omega)
        have hc2 : c - ((j + 1 : Nat) : Int) = c - 1 - (j : Int) := by push_cast; ring
        rwa [hc2] at h
      rw [ih (c - 1) k2 (by omega) hw2 hmin2, hcast]

/-- The forward walk returns `c + k` when day `c + k` is the first weekday
among `c, c+1, …` and the fuel exceeds `k`. -/
theorem nextWeekdayAux_eq (fuel : Nat) : ∀ (c : Int) (k : Nat), k < fuel →
    is_weekday (c + k) = true → (∀ j : Nat, j < k → is_weekday (c + j) = false) →
    nextWeekdayAux c fuel = c + k := by
  induction fuel with
  | zero => intro c k hk _ _; omega
  | succ f ih =>
    intro c k hk hw hmin
    rw [nextWeekdayAux]
    by_cases hc : is_weekday c = true
    · have hk0 : k = 0 := by
        by_contra h
        have h0 := hmin 0 (by omega)
        simp only [Nat.cast_zero, add_zero] at h0
        rw [hc] at h0
        exact Bool.noConfusion h0
      subst hk0
      simp [hc]
    · have hk0 : k ≠ 0 := by
        intro h
        subst h
        simp only [Nat.cast_zero, add_zero] at hw
        exact hc hw
      obtain ⟨k2, rfl⟩ : ∃ k2, k = k2 + 1 := ⟨k - 1, by omega⟩
      rw [if_neg hc]
      have hcast : c + 1 + (k2 : Int) = c + ((k2 + 1 : Nat) : Int) := by push_cast; ring
      have hw2 : is_weekday (c + 1 + (k2 : Int)) = true := by rw [hcast]; exact hw
      have hmin2 : ∀ j : Nat, j < k2 → is_weekday (c + 1 + (j : Int)) = false := by
        intro j hj
        have h := hmin (j + 1) (by omega)
        have hc2 : c + ((j + 1 : Nat) : Int) = c + 1 + (j : Int) := by push_cast; ring
        rwa [hc2] at h
      rw [ih (c + 1) k2 (by omega) hw2 hmin2, hcast]

/-- Exhaustive description of `get_last_weekday`: it stops after one, two or
three backward steps (the fuel of 7 is never exhausted, so the embedded
function agrees with the unbounded Python loop, which always terminates). -/
theorem get_last_weekday_eq_cases (d : Int) :
    (is_weekday (d - 1) = true ∧ get_last_weekday d = d - 1) ∨
    (is_weekday (d - 1) = false ∧ is_weekday (d - 2) = true ∧
      get_last_weekday d = d - 2) ∨
    (is_weekday (d - 1) = false ∧ is_weekday (d - 2) = false ∧
      is_weekday (d - 3) = true ∧ get_last_weekday d = d - 3) := by
  by_cases h1 : is_weekday (d - 1) = true
  · left
    refine ⟨h1, ?_⟩
    have e0 : d - 1 - ((0 : Nat) : Int) = d - 1 := by push_cast; ring
    have h := lastWeekdayAux_eq 7 (d - 1) 0 (by omega) (by rw [e0]; exact h1)
      (by intro j hj; omega)
    rw [get_last_weekday, h, e0]
  · simp only [Bool.not_eq_true] at h1
    by_cases h2 : is_weekday (d - 2) = true
    · right; left
      refine ⟨h1, h2, ?_⟩
      have e1 : d - 1 - ((1 : Nat) : Int) = d - 2 := by push_cast; ring
      have hmin : ∀ j : Nat, j < 1 → is_weekday (d - 1 - (j : Int)) = false := by
        intro j hj
        have hj0 : j = 0 := by omega
        subst hj0
        simpa using h1
      have h := lastWeekdayAux_eq 7 (d - 1) 1 (by omega) (by rw [e1]; exact h2) hmin
      rw [get_last_weekday, h, e1]
    · simp only [Bool.not_eq_true] at h2
      have h3 : is_weekday (d - 3) = true := by
        rw [is_weekday_true_iff]
        rw [is_weekday_false_iff] at h1 h2
        omega
      right; right
      refine ⟨h1, h2, h3, ?_⟩
      have e2 : d - 1 - ((2 : Nat) : Int) = d - 3 := by push_cast; ring
      have hmin : ∀ j : Nat, j < 2 → is_weekday (d - 1 - (j : Int)) = false := by
        intro j hj
        have hj01 : j = 0 ∨ j = 1 := by omega
        rcases hj01 with hj0 | hj1
        · subst hj0; simpa using h1
        · subst hj1
          have : d - 1 - ((1 : Nat) : Int) = d - 2 := by push_cast; ring
          rw [this]
          exact h2
      have h := lastWeekdayAux_eq 7 (d - 1) 2 (by omega) (by rw [e2]; exact h3) hmin
      rw [get_last_weekday, h, e2]

/-- Exhaustive description of `next_weekday`: one, two or three forward
steps. -/
theorem next_weekday_eq_cases (d : Int) :
    (is_weekday (d + 1) = true ∧ next_weekday d = d + 1) ∨
    (is_weekday (d + 1) = false ∧ is_weekday (d + 2) = true ∧
      next_weekday d = d + 2) ∨
    (is_weekday (d + 1) = false ∧ is_weekday (d + 2) = false ∧
      is_weekday (d + 3) = true ∧ next_weekday d = d + 3) := by
  by_cases h1 : is_weekday (d + 1) = true
  · left
    refine ⟨h1, ?_⟩
    have e0 : d + 1 + ((0 : Nat) : Int) = d + 1 := by push_cast; ring
    have h := nextWeekdayAux_eq 7 (d + 1) 0 (by omega) (by rw [e0]; exact h1)
      (by intro j hj; omega)
    rw [next_weekday, h, e0]
  · simp only [Bool.not_eq_true] at h1
    by_cases h2 : is_weekday (d + 2) = true
    · right; left
      refine ⟨h1, h2, ?_⟩
      have e1 : d + 1 + ((1 : Nat) : Int) = d + 2 := by push_cast; ring
      have hmin : ∀ j : Nat, j < 1 → is_weekday (d + 1 + (j : Int)) = false := by
        intro j hj
        have hj0 : j = 0 := by omega
        subst hj0
        simpa using h1
      have h := nextWeekdayAux_eq 7 (d + 1) 1 (by omega) (by rw [e1]; exact h2) hmin
      rw [next_weekday, h, e1]
    · simp only [Bool.not_eq_true] at h2
      have h3 : is_weekday (d + 3) = true := by
        rw [is_weekday_true_iff]
        rw [is_weekday_false_iff] at h1 h2
        omega
      right; right
      refine ⟨h1, h2, h3, ?_⟩
      have e2 : d + 1 + ((2 : Nat) : Int) = d + 3 := by push_cast; ring
      have hmin : ∀ j : Nat, j < 2 → is_weekday (d + 1 + (j : Int)) = false := by
        intro j hj
        have hj01 : j = 0 ∨ j = 1 := by omega
        rcases hj01 with hj0 | hj1
        · subst hj0; simpa using h1
        · subst hj1
          have : d + 1 + ((1 : Nat) : Int) = d + 2 := by push_cast; ring
          rw [this]
          exact h2
      have h := nextWeekdayAux_eq 7 (d + 1) 2 (by omega) (by rw [e2]; exact h3) hmin
      rw [next_weekday, h, e2]

theorem get_last_weekday_is_weekday (d : Int) :
    is_weekday (get_last_weekday d) = true := by
  rcases get_last_weekday_eq_cases d with ⟨hw, he⟩ | ⟨_, hw, he⟩ | ⟨_, _, hw, he⟩ <;>
    rw [he] <;> exact hw

theorem get_last_weekday_lt (d : Int) : get_last_weekday d < d := by
  rcases get_last_weekday_eq_cases d with ⟨_, he⟩ | ⟨_, _, he⟩ | ⟨_, _, _, he⟩ <;>
    rw [he] <;> omega

theorem get_last_weekday_maximal (d x : Int) (hlt : get_last_weekday d < x)
    (hup : x < d) : is_weekday x = false := by
  rcases get_last_weekday_eq_cases d with ⟨_, he⟩ | ⟨ha, _, he⟩ | ⟨ha, hb, _, he⟩
  · rw [he] at hlt; omega
  · rw [he] at hlt
    have hx : x = d - 1 := by omega
    rw [hx]
    exact ha
  · rw [he] at hlt
    have hx : x = d - 1 ∨ x = d - 2 := by omega
    rcases hx with hx | hx <;> rw [hx]
    · exact ha
    · exact hb

theorem next_weekday_gt (d : Int) : d < next_weekday d := by
  rcases next_weekday_eq_cases d with ⟨_, he⟩ | ⟨_, _, he⟩ | ⟨_, _, _, he⟩ <;>
    rw [he] <;> omega

theorem next_weekday_minimal (d x : Int) (hlo : d < x) (hhi : x < next_weekday d) :
    is_weekday x = false := by
  rcases next_weekday_eq_cases d with ⟨_, he⟩ | ⟨ha, _, he⟩ | ⟨ha, hb, _, he⟩
  · rw [he] at hhi; omega
  · rw [he] at hhi
    have hx : x = d + 1 := by omega
    rw [hx]
    exact ha
  · rw [he] at hhi
    have hx : x = d + 1 ∨ x = d + 2 := by omega
    rcases hx with hx | hx <;> rw [hx]
    · exact ha
    · exact hb

/-- Round-trip: for a business day `d`, walking forward to the next business
day and then back with `get_last_weekday` returns `d`. -/
theorem get_last_weekday_next_weekday (d : Int) (hd : is_weekday d = true) :
    get_last_weekday (next_weekday d) = d := by
  have hgt : d < next_weekday d := next_weekday_gt d
  have hlt : get_last_weekday (next_weekday d) < next_weekday d :=
    get_last_weekday_lt _
  have hw : is_weekday (get_last_weekday (next_weekday d)) = true :=
    get_last_weekday_is_weekday _
  rcases lt_trichotomy (get_last_weekday (next_weekday d)) d with h | h | h
  · have hfalse := get_last_weekday_maximal (next_weekday d) d h hgt
    rw [hd] at hfalse
    exact Bool.noConfusion hfalse
  · exact h
  · have hfalse := next_weekday_minimal d (get_last_weekday (next_weekday d)) h hlt
    rw [hw] at hfalse
    exact Bool.noConfusion hfalse

/-- C8: `get_last_weekday d` is a business day strictly before `d` with no
business day strictly between it and `d`; for a business day `d`, applying it
to the next business day after `d` yields `d`.  The function is total over
all dates (the fuelled embedding never exhausts its fuel, mirroring the
always-terminating Python walk). -/
theorem get_last_weekday_spec (d : Int) :
    is_weekday (get_last_weekday d) = true ∧
    get_last_weekday d < d ∧
    (∀ x : Int, get_last_weekday d < x → x < d → is_weekday x = false) ∧
    (is_weekday d = true → get_last_weekday (next_weekday d) = d) :=
  ⟨get_last_weekday_is_weekday d, get_last_weekday_lt d,
   fun x h1 h2 => get_last_weekday_maximal d x h1 h2,
   fun hd => get_last_weekday_next_weekday d hd⟩

/-- C8 witness: concrete check at 2025-03-17 (Monday) and the Friday before. -/
theorem get_last_weekday_spec_witness :
    is_weekday (get_last_weekday (rataDie 2025 3 17)) = true ∧
    get_last_weekday (rataDie 2025 3 17) < rataDie 2025 3 17 ∧
    is_weekday (rataDie 2025 3 15) = false ∧
    get_last_weekday (next_weekday (rataDie 2025 3 14)) = rataDie 2025 3 14 :=
  ⟨(get_last_weekday_spec (rataDie 2025 3 17)).1,
   (get_last_weekday_spec (rataDie 2025 3 17)).2.1,
   (get_last_weekday_spec (rataDie 2025 3 17)).2.2.1 (rataDie 2025 3 15)
     (by decide) (by decide),
   (get_last_weekday_spec (rataDie 2025 3 14)).2.2.2 (by decide)⟩

/-- C4: with the configured anchor (`BASE_DATE` = 2025-03-14, `BASE_URL_ID` =
5898), `get_url_id` maps 2025-03-17 (the following Monday, a business day) to
5899 and 2025-03-15 (a Saturday, not a business day) to 5898 — the
non-business-day target is not rejected and still produces a value. -/
theorem get_url_id_base_scenario :
    get_url_id (rataDie 2025 3 17) (rataDie 2025 3 14) 5898 = 5899 ∧
    get_url_id (rataDie 2025 3 15) (rataDie 2025 3 14) 5898 = 5898 ∧
    is_weekday (rataDie 2025 3 17) = true ∧
    is_weekday (rataDie 2025 3 15) = false := by
  refine ⟨by decide, by decide, by decide, by decide⟩

/-! ## Weekday-count algebra and `get_url_id` -/

/-- Splitting a block of consecutive days splits the weekday count. -/
theorem weekdayCount_add (m n : Nat) : ∀ s : Int,
    weekdayCount s (m + n) = weekdayCount s m + weekdayCount (s + (m : Int)) n := by
  induction m with
  | zero =>
    intro s
    simp [weekdayCount]
  | succ k ih =>
    intro s
    have h1 : k + 1 + n = (k + n) + 1 := by omega
    rw [h1, weekdayCount, weekdayCount, ih (s + 1)]
    have h2 : s + ((k + 1 : Nat) : Int) = s + 1 + (k : Int) := by push_cast; ring
    rw [h2]
    omega

/-- Peeling the last day off a weekday count. -/
theorem weekdayCount_succ_right (s : Int) (n : Nat) :
    weekdayCount s (n + 1)
      = weekdayCount s n + (if is_weekday (s + (n : Int)) then 1 else 0) := by
  have h := weekdayCount_add n 1 s
  simpa [weekdayCount] using h

/-- The backward counting loop counts the same days as the forward one:
counting down `n` days from `s` counts the block `[s - n + 1, s]`. -/
theorem weekdayCountDown_eq (n : Nat) : ∀ s : Int,
    weekdayCountDown s n = weekdayCount (s - (n : Int) + 1) n := by
  induction n with
  | zero =>
    intro s
    simp [weekdayCountDown, weekdayCount]
  | succ k ih =>
    intro s
    rw [weekdayCountDown, ih (s - 1), weekdayCount_succ_right]
    have h1 : s - 1 - (k : Int) + 1 = s - ((k + 1 : Nat) : Int) + 1 := by push_cast; ring
    have h2 : s - ((k + 1 : Nat) : Int) + 1 + (k : Int) = s := by push_cast; ring
    rw [h1, h2]
    omega

/-- Closed form of `get_url_id` at or after the anchor. -/
theorem get_url_id_of_ge (d b i : Int) (h : b ≤ d) :
    get_url_id d b i = i + weekdayCount (b + 1) (d - b).toNat := by
  unfold get_url_id
  rcases eq_or_lt_of_le h with heq | hlt
  · subst heq
    simp [weekdayCount]
  · rw [if_neg (by omega), if_pos (by omega)]

/-- Closed form of `get_url_id` at or before the anchor: subtract the number
of weekdays in `[date, base_date - 1]`. -/
theorem get_url_id_of_le (d b i : Int) (h : d ≤ b) :
    get_url_id d b i = i - weekdayCount d (b - d).toNat := by
  unfold get_url_id
  rcases eq_or_lt_of_le h with heq | hlt
  · subst heq
    simp [weekdayCount]
  · rw [if_neg (by omega), if_neg (by omega), weekdayCountDown_eq]
    have h1 : b - 1 - (((b - d).toNat : Nat) : Int) + 1 = d := by omega
    rw [h1]

/-- One calendar day never decreases the identifier. -/
theorem get_url_id_succ_le (d b i : Int) :
    get_url_id d b i ≤ get_url_id (d + 1) b i := by
  rcases le_or_lt b d with h | h
  · rw [get_url_id_of_ge d b i h, get_url_id_of_ge (d + 1) b i (by omega)]
    have h1 : (d + 1 - b).toNat = (d - b).toNat + 1 := by omega
    rw [h1, weekdayCount_succ_right]
    omega
  · rw [get_url_id_of_le d b i (by omega), get_url_id_of_le (d + 1) b i (by omega)]
    have h1 : (b - d).toNat = (b - (d + 1)).toNat + 1 := by omega
    rw [h1, weekdayCount]
    omega

/-- C10: the date-to-identifier map is monotone non-decreasing over all
calendar dates, on either side of the anchor and across it. -/
theorem get_url_id_monotone (b i d1 d2 : Int) (h : d1 ≤ d2) :
    get_url_id d1 b i ≤ get_url_id d2 b i := by
  have key : ∀ n : Nat, ∀ d : Int, get_url_id d b i ≤ get_url_id (d + (n : Int)) b i := by
    intro n
    induction n with
    | zero => intro d; simp
    | succ k ih =>
      intro d
      calc get_url_id d b i ≤ get_url_id (d + (k : Int)) b i := ih d
        _ ≤ get_url_id (d + (k : Int) + 1) b i := get_url_id_succ_le _ b i
        _ = get_url_id (d + ((k + 1 : Nat) : Int)) b i := by
            have hc : d + (k : Int) + 1 = d + ((k + 1 : Nat) : Int) := by push_cast; ring
            rw [hc]
  have h2 := key (d2 - d1).toNat d1
  have hc : d1 + (((d2 - d1).toNat : Nat) : Int) = d2 := by omega
  rwa [hc] at h2

/-- C10 witness: a Saturday anchor-crossing pair, 2025-03-13 ≤ 2025-03-15. -/
theorem get_url_id_monotone_witness :
    get_url_id (rataDie 2025 3 13) (rataDie 2025 3 14) 5898
      ≤ get_url_id (rataDie 2025 3 15) (rataDie 2025 3 14) 5898 :=
  get_url_id_monotone (rataDie 2025 3 14) 5898 (rataDie 2025 3 13)
    (rataDie 2025 3 15) (by decide)

/-- C3: the anchor is a fixed point of `get_url_id`, and for business days
`d1 < d2` with the anchor not strictly between them, the identifier
difference equals the number of business days in the half-open interval
`(d1, d2]`. -/
theorem get_url_id_difference (b i d1 d2 : Int)
    (h1 : is_weekday d1 = true) (h2 : is_weekday d2 = true)
    (hlt : d1 < d2) (hanchor : ¬(d1 < b ∧ b < d2)) :
    get_url_id b b i = i ∧
    get_url_id d2 b i - get_url_id d1 b i = (businessDaysBetween d1 d2 : Int) := by
  constructor
  · unfold get_url_id
    rw [if_pos rfl]
  · unfold businessDaysBetween
    rcases le_or_lt b d1 with hb | hb
    · rw [get_url_id_of_ge d1 b i hb, get_url_id_of_ge d2 b i (by omega)]
      have hsplit : (d2 - b).toNat = (d1 - b).toNat + (d2 - d1).toNat := by omega
      rw [hsplit, weekdayCount_add]
      have hc : b + 1 + (((d1 - b).toNat : Nat) : Int) = d1 + 1 := by omega
      rw [hc]
      omega
    · have hb2 : d2 ≤ b := by omega
      rw [get_url_id_of_le d1 b i (by omega), get_url_id_of_le d2 b i hb2]
      have hsplit : (b - d1).toNat = (d2 - d1).toNat + (b - d2).toNat := by omega
      rw [hsplit, weekdayCount_add]
      have hc : d1 + (((d2 - d1).toNat : Nat) : Int) = d2 := by omega
      rw [hc]
      -- It remains to compare counting `(d1, d2]` with counting `[d1, d2)`:
      -- both endpoints are business days, so the two counts agree.
      obtain ⟨m, hm⟩ : ∃ m : Nat, (d2 - d1).toNat = m + 1 := ⟨(d2 - d1).toNat - 1, by omega⟩
      have hleft : weekdayCount d1 (m + 1)
          = 1 + weekdayCount (d1 + 1) m := by
        rw [weekdayCount, h1]
        simp
      have hright : weekdayCount (d1 + 1) (m + 1)
          = weekdayCount (d1 + 1) m + 1 := by
        rw [weekdayCount_succ_right]
        have hc2 : d1 + 1 + (m : Int) = d2 := by omega
        rw [hc2, h2]
        simp
      rw [hm, hleft, hright]
      omega

/-- C3 witness: anchor Friday 2025-03-14 with id 5898, `d1` the following
Monday, `d2` the Tuesday after; one business day lies in `(d1, d2]`. -/
theorem get_url_id_difference_witness :
    get_url_id (rataDie 2025 3 14) (rataDie 2025 3 14) 5898 = 5898 ∧
    get_url_id (rataDie 2025 3 18) (rataDie 2025 3 14) 5898
        - get_url_id (rataDie 2025 3 17) (rataDie 2025 3 14) 5898
      = (businessDaysBetween (rataDie 2025 3 17) (rataDie 2025 3 18) : Int) :=
  get_url_id_difference (rataDie 2025 3 14) 5898 (rataDie 2025 3 17)
    (rataDie 2025 3 18) (by decide) (by decide) (by decide) (by decide)

/-! ## Extract-and-publish theorems -/

/-- When the upload loop completes, it has published every extracted member,
in order, under the joined destination key with the fixed content type. -/
theorem uploadMembers_complete (p : String) (ok : String → Bool) :
    ∀ ms : List (String × List Nat), (uploadMembers p ok ms).2 = true →
      (uploadMembers p ok ms).1
        = ms.map (fun m => ⟨pathJoin p m.1, m.2, "application/octet-stream"⟩) := by
  intro ms
  induction ms with
  | nil => intro _; simp [uploadMembers]
  | cons m rest ih =>
    intro h
    obtain ⟨mp, mc⟩ := m
    by_cases hok : ok (pathJoin p mp) = true
    · simp only [uploadMembers, hok, if_true] at h ⊢
      rw [ih h]
      rfl
    · simp [uploadMembers, hok] at h

/-- C1: when `unzip_and_upload_to_gcs` succeeds on a well-formed archive
(member paths distinct, as extraction into a directory forces), the published
objects are exactly one object per extracted member — key
`gcs_destination_path` joined with the member's relative path, content equal
to the member's bytes, content type `application/octet-stream`, nothing
dropped and nothing extra — and the source archive was removed. -/
theorem unzip_and_upload_roundtrip (members : List (String × List Nat))
    (gcs_destination_path : String) (uploadOk : String → Bool)
    (hpaths : (members.map Prod.fst).Nodup)
    (hs : (unzip_and_upload_to_gcs (.wellFormed members) gcs_destination_path
      uploadOk).success = true) :
    (unzip_and_upload_to_gcs (.wellFormed members) gcs_destination_path uploadOk).published
      = members.map
          (fun m => ⟨pathJoin gcs_destination_path m.1, m.2, "application/octet-stream"⟩) ∧
    (unzip_and_upload_to_gcs (.wellFormed members) gcs_destination_path
      uploadOk).archiveRemoved = true := by
  by_cases h : (uploadMembers gcs_destination_path uploadOk members).2 = true
  · constructor
    · simp only [unzip_and_upload_to_gcs, h, if_true]
      exact uploadMembers_complete gcs_destination_path uploadOk members h
    · simp [unzip_and_upload_to_gcs, h]
  · simp [unzip_and_upload_to_gcs, h] at hs

/-- C1 witness: the archive of the spec's round-trip scenario, containing
`a.csv` and `sub/b.csv`, published under prefix `sgx-data/`. -/
theorem unzip_and_upload_roundtrip_witness :
    (([(("a.csv" : String), ([97] : List Nat)), ("sub/b.csv", [98])]).map Prod.fst).Nodup ∧
    (unzip_and_upload_to_gcs
        (.wellFormed [(("a.csv" : String), ([97] : List Nat)), ("sub/b.csv", [98])])
        ("sgx-data/") (fun _ => true)).success = true ∧
    ((unzip_and_upload_to_gcs
        (.wellFormed [(("a.csv" : String), ([97] : List Nat)), ("sub/b.csv", [98])])
        ("sgx-data/") (fun _ => true)).published
      = [⟨("sgx-data/a.csv"), [97], ("application/octet-stream")⟩,
         ⟨("sgx-data/sub/b.csv"), [98], ("application/octet-stream")⟩] ∧
     (unzip_and_upload_to_gcs
        (.wellFormed [(("a.csv" : String), ([97] : List Nat)), ("sub/b.csv", [98])])
        ("sgx-data/") (fun _ => true)).archiveRemoved = true) := by
  refine ⟨by decide, by decide, ?_⟩
  have h := unzip_and_upload_roundtrip
    [(("a.csv" : String), ([97] : List Nat)), ("sub/b.csv", [98])]
    ("sgx-data/") (fun _ => true) (by decide) (by decide)
  refine ⟨?_, h.2⟩
  rw [h.1]
  decide

/-- C2 counterexample: a malformed archive makes the call report failure but
the archive file is NOT deleted (`os.remove` sits after the extraction and
upload block inside the `try`, so the `BadZipFile` handler skips it); and
when extraction succeeded but an upload fails, the archive is likewise not
deleted. -/
theorem unzip_removal_claim_counterexample :
    (unzip_and_upload_to_gcs .malformed ("sgx-data/") (fun _ => true)).success = false ∧
    (unzip_and_upload_to_gcs .malformed ("sgx-data/") (fun _ => true)).archiveRemoved
      = false ∧
    (unzip_and_upload_to_gcs (.wellFormed [(("a.csv" : String), ([49] : List Nat))])
        ("sgx-data/") (fun _ => false)).archiveRemoved = false := by
  refine ⟨rfl, rfl, by decide⟩

/-- C2 (amended): the archive file is removed exactly when the whole call
succeeds (well-formed archive and every upload succeeded); a malformed
archive is reported as failure rather than a crash, but the archive file is
not deleted, and an upload failure likewise leaves it in place. -/
theorem unzip_archiveRemoved_iff_success (zip : ZipFile) (p : String)
    (uploadOk : String → Bool) :
    (unzip_and_upload_to_gcs zip p uploadOk).archiveRemoved
      = (unzip_and_upload_to_gcs zip p uploadOk).success ∧
    (unzip_and_upload_to_gcs .malformed p uploadOk).success = false := by
  constructor
  · cases zip with
    | malformed => rfl
    | wellFormed members =>
      by_cases h : (uploadMembers p uploadOk members).2 = true <;>
        simp [unzip_and_upload_to_gcs, h]
  · rfl

/-! ## Fetch-step theorems -/

/-- C5: a fetch failure (network error, non-2xx raised by
`raise_for_status`, or timeout — all surfacing as a `RequestException`)
appends exactly one line `today ++ " - " ++ url` to `missed_files.txt` and
returns `false` without touching the target file; a success writes the full
response body to the target path, returns `true`, and appends nothing. -/
theorem download_file_to_temp_spec (http : String → HttpResult)
    (today url temp_filepath : String) (fs : FS) :
    (∀ body : List Nat, http url = .ok body →
      download_file_to_temp http today url temp_filepath fs
        = (true, ⟨(temp_filepath, body) :: fs.files, fs.missedLines⟩)) ∧
    (http url = .err →
      download_file_to_temp http today url temp_filepath fs
        = (false, ⟨fs.files, fs.missedLines ++ [today ++ " - " ++ url]⟩)) := by
  constructor
  · intro body hb
    simp [download_file_to_temp, hb]
  · intro hb
    simp [download_file_to_temp, hb]

/-- C5 witness: one successful fetch and one failing fetch from an empty
filesystem state. -/
theorem download_file_to_temp_spec_witness :
    download_file_to_temp (fun _ => .ok [49]) ("2025-03-15") ("https://x/u")
        ("/tmp/t.zip") ⟨[], []⟩
      = (true, ⟨[(("/tmp/t.zip" : String), ([49] : List Nat))], []⟩) ∧
    download_file_to_temp (fun _ => .err) ("2025-03-15") ("https://x/u")
        ("/tmp/t.zip") ⟨[], []⟩
      = (false, ⟨[], [("2025-03-15 - https://x/u" : String)]⟩) := by
  constructor
  · exact (download_file_to_temp_spec (fun _ => .ok [49]) ("2025-03-15") ("https://x/u")
      ("/tmp/t.zip") ⟨[], []⟩).1 [49] rfl
  · have h := (download_file_to_temp_spec (fun _ => .err) ("2025-03-15") ("https://x/u")
      ("/tmp/t.zip") ⟨[], []⟩).2 rfl
    simpa using h

/-! ## Orchestrator theorems -/

/-- The per-date orchestrator dispatches every file type in list order,
whatever the per-unit outcomes. -/
theorem download_files_for_date_trace (unit : Int → String → Bool) (date : Int) :
    ∀ fts : List String,
      (download_files_for_date unit date fts).2 = fts.map (fun ft => (date, ft)) := by
  intro fts
  induction fts with
  | nil => rfl
  | cons ft rest ih => simp [download_files_for_date, ih]

/-- The per-date orchestrator returns `true` iff every dispatched unit
succeeded. -/
theorem download_files_for_date_success_iff (unit : Int → String → Bool) (date : Int) :
    ∀ fts : List String,
      ((download_files_for_date unit date fts).1 = true ↔
        ∀ ft ∈ fts, unit date ft = true) := by
  intro fts
  induction fts with
  | nil => simp [download_files_for_date]
  | cons ft rest ih =>
    simp [download_files_for_date, Bool.and_eq_true, ih]

/-- C7: `download_files_for_date` attempts every file type in the list even
after an earlier unit fails, and its boolean result is `true` iff every
dispatched `(date, file_type)` unit succeeded. -/
theorem download_files_for_date_spec (unit : Int → String → Bool) (date : Int)
    (file_types : List String) :
    (download_files_for_date unit date file_types).2
      = file_types.map (fun ft => (date, ft)) ∧
    ((download_files_for_date unit date file_types).1 = true ↔
      ∀ ft ∈ file_types, unit date ft = true) :=
  ⟨download_files_for_date_trace unit date file_types,
   download_files_for_date_success_iff unit date file_types⟩

/-- C7 witness: with every unit failing, both file types are still
dispatched; the success iff is instantiated at a singleton list. -/
theorem download_files_for_date_spec_witness :
    (download_files_for_date (fun _ _ => false) 739324
        [("a.zip" : String), ("b.zip")]).2
      = [(739324, ("a.zip" : String)), (739324, "b.zip")] ∧
    ((download_files_for_date (fun _ _ => false) 739324 [("a.zip" : String)]).1 = true ↔
      ∀ ft ∈ [("a.zip" : String)], (fun (_ : Int) (_ : String) => false) 739324 ft = true) :=
  ⟨(download_files_for_date_spec (fun _ _ => false) 739324
      [("a.zip" : String), ("b.zip")]).1,
   (download_files_for_date_spec (fun _ _ => false) 739324 [("a.zip" : String)]).2⟩

/-- C6: the claim's failing input, evaluated on the embedded code.
`download_utils.py` never imports `timedelta` (line 5 imports only
`datetime`), so `current_date += timedelta(days=1)` at line 106 raises an
unhandled `NameError` at the end of the first loop iteration whenever
`start_date ≤ end_date`.  On the range Monday 2025-03-17 to Tuesday
2025-03-18 with the configured file type `WEBPXTICK_DT.zip`, only the first
date's single unit is dispatched and the call crashes — the Tuesday unit the
claim promises is never reached; even the all-weekend Saturday-to-Sunday
range crashes instead of completing with zero units, and only an empty range
(start after end) returns normally. -/
theorem download_date_range_name_error :
    (download_date_range (fun _ _ => true) (rataDie 2025 3 17) (rataDie 2025 3 18)
        [("WEBPXTICK_DT.zip" : String)]).1 = RangeOutcome.nameError ∧
    (download_date_range (fun _ _ => true) (rataDie 2025 3 17) (rataDie 2025 3 18)
        [("WEBPXTICK_DT.zip" : String)]).2
      = [(rataDie 2025 3 17, ("WEBPXTICK_DT.zip" : String))] ∧
    (download_date_range (fun _ _ => true) (rataDie 2025 3 15) (rataDie 2025 3 16)
        [("WEBPXTICK_DT.zip" : String)]).1 = RangeOutcome.nameError ∧
    (download_date_range (fun _ _ => true) (rataDie 2025 3 15) (rataDie 2025 3 16)
        [("WEBPXTICK_DT.zip" : String)]).2 = [] ∧
    (download_date_range (fun _ _ => true) (rataDie 2025 3 18) (rataDie 2025 3 17)
        [("WEBPXTICK_DT.zip" : String)]).1 = RangeOutcome.completed := by
  refine ⟨by decide, by decide, by decide, by decide, by decide⟩

end FinanceDownload
